import Mathlib

/-!
Verification of the feature-identification engine of beach-dune-formatter
(`src/beach_dune_formatter.py`) against its natural-language specification.

The pandas program is shallowly embedded over exact rationals:
a profile is a list of `(x, y)` samples ordered by `x` (the DataFrame is
indexed by `x`, so row labels coincide with `x` values).  Pandas
floating-point `NaN` propagation in rolling/expanding windows is embedded
by explicit bounds checks: a comparison whose window extends past the
sequence boundary (or touches an undefined slope) evaluates to `False`
exactly as `NaN` comparisons do in pandas.
-/

/-- One `(x, y)` row of a profile DataFrame: distance from baseline and
elevation (columns `x` and `y` in the source). -/
structure Sample where
  x : ℚ
  y : ℚ
deriving DecidableEq, Repr

/-- The list of sampled `x` values (the DataFrame index after
`set_index("x", drop=False)`). -/
def xsOf (p : List Sample) : List ℚ := p.map (·.x)

/-- Adjacent samples are strictly increasing in `x`. -/
def sortedXb : List Sample → Bool
  | [] => true
  | [_] => true
  | a :: b :: rest => decide (a.x < b.x) && sortedXb (b :: rest)

/-- The profile's samples are strictly increasing in `x` (the spec's
precondition; pandas label slicing assumes a monotonic index). -/
def sortedX (p : List Sample) : Prop := sortedXb p = true

instance (p : List Sample) : Decidable (sortedX p) := by
  unfold sortedX; infer_instance

/-- Positional access to the `x` column (out-of-range reads never occur on
the paths the source exercises; `0` is a dummy). -/
def xAt (p : List Sample) (i : ℕ) : ℚ := (p.getD i ⟨0, 0⟩).x

/-- Positional access to the `y` column. -/
def yAt (p : List Sample) (i : ℕ) : ℚ := (p.getD i ⟨0, 0⟩).y

/-- `slope = (y - y.shift(1)) / (x - x.shift(1))`: backward slope at
position `i`; at `i = 0` the value is `NaN` in pandas, and every use below
guards `0 < i` accordingly. -/
def slopeAt (p : List Sample) (i : ℕ) : ℚ :=
  (yAt p i - yAt p (i - 1)) / (xAt p i - xAt p (i - 1))

/-- First index `i` in `[start, start+fuel)` with `f i = true`
(the scan behind `Series.idxmax()` on a boolean series). -/
def findFirstAux (f : ℕ → Bool) : ℕ → ℕ → Option ℕ
  | _, 0 => none
  | i, fuel + 1 => if f i then some i else findFirstAux f (i + 1) fuel

/-- First index `i < n` with `f i = true`, if any. -/
def findFirst (f : ℕ → Bool) (n : ℕ) : Option ℕ := findFirstAux f 0 n

theorem findFirstAux_some_iff (f : ℕ → Bool) (fuel : ℕ) :
    ∀ i j, findFirstAux f i fuel = some j ↔
      (i ≤ j ∧ j < i + fuel ∧ f j = true ∧ ∀ k, i ≤ k → k < j → f k = false) := by
  induction fuel with
  | zero =>
    intro i j
    simp only [findFirstAux]
    constructor
    · intro h; cases h
    · rintro ⟨h1, h2, -⟩; omega
  | succ fuel ih =>
    intro i j
    simp only [findFirstAux]
    by_cases hfi : f i = true
    · simp only [hfi, if_true]
      constructor
      · rintro ⟨rfl⟩
        exact ⟨le_refl _, by omega, hfi, fun k hk1 hk2 => by omega⟩
      · rintro ⟨h1, h2, h3, h4⟩
        by_cases hij : j = i
        · simp [hij]
        · have : f i = false := h4 i (le_refl _) (by omega)
          rw [hfi] at this; cases this
    · have hfi' : f i = false := by
        cases h : f i
        · rfl
        · exact absurd h hfi
      simp only [hfi', if_false, Bool.false_eq_true]
      rw [ih (i + 1) j]
      constructor
      · rintro ⟨h1, h2, h3, h4⟩
        refine ⟨by omega, by omega, h3, fun k hk1 hk2 => ?_⟩
        by_cases hk : k = i
        · rw [hk]; exact hfi'
        · exact h4 k (by omega) hk2
      · rintro ⟨h1, h2, h3, h4⟩
        have hij : j ≠ i := by
          intro h; rw [h] at h3; rw [h3] at hfi'; cases hfi'
        exact ⟨by omega, by omega, h3, fun k hk1 hk2 => h4 k (by omega) hk2⟩

theorem findFirstAux_none_iff (f : ℕ → Bool) (fuel : ℕ) :
    ∀ i, findFirstAux f i fuel = none ↔ ∀ k, i ≤ k → k < i + fuel → f k = false := by
  induction fuel with
  | zero =>
    intro i; simp only [findFirstAux]
    constructor
    · intro _ k h1 h2; omega
    · intro _; trivial
  | succ fuel ih =>
    intro i
    simp only [findFirstAux]
    by_cases hfi : f i = true
    · simp only [hfi, if_true]
      constructor
      · intro h; cases h
      · intro h
        have := h i (le_refl _) (by omega)
        rw [hfi] at this; cases this
    · have hfi' : f i = false := by
        cases h : f i
        · rfl
        · exact absurd h hfi
      simp only [hfi', if_false, Bool.false_eq_true]
      rw [ih (i + 1)]
      constructor
      · intro h k hk1 hk2
        by_cases hk : k = i
        · rw [hk]; exact hfi'
        · exact h k (by omega) (by omega)
      · intro h k hk1 hk2
        exact h k (by omega) (by omega)

theorem findFirst_some_iff (f : ℕ → Bool) (n j : ℕ) :
    findFirst f n = some j ↔ j < n ∧ f j = true ∧ ∀ k < j, f k = false := by
  rw [findFirst, findFirstAux_some_iff]
  constructor
  · rintro ⟨-, h2, h3, h4⟩
    exact ⟨by omega, h3, fun k hk => h4 k (by omega) hk⟩
  · rintro ⟨h1, h2, h3⟩
    exact ⟨by omega, by omega, h2, fun k _ hk => h3 k hk⟩

theorem findFirst_none_iff (f : ℕ → Bool) (n : ℕ) :
    findFirst f n = none ↔ ∀ k < n, f k = false := by
  rw [findFirst, findFirstAux_none_iff]
  constructor
  · intro h k hk; exact h k (by omega) (by omega)
  · intro h k _ hk; exact h k (by omega)

/-- The fold behind `Series.idxmin()`: keep the earlier index unless a
strictly smaller value appears (pandas returns the first occurrence of the
minimum). -/
def minStep (f : ℕ → ℚ) (b i : ℕ) : ℕ := if f i < f b then i else b

/-- First index attaining the minimum of `f` over a list of positions
(`Series.idxmin()`; the `[]` case never occurs on the source's paths). -/
def idxminL (f : ℕ → ℚ) : List ℕ → ℕ
  | [] => 0
  | h :: t => t.foldl (minStep f) h

theorem foldl_minStep_mem (f : ℕ → ℚ) (t : List ℕ) :
    ∀ h, t.foldl (minStep f) h = h ∨ t.foldl (minStep f) h ∈ t := by
  induction t with
  | nil => intro h; left; rfl
  | cons i t ih =>
    intro h
    simp only [List.foldl_cons]
    rcases ih (minStep f h i) with h1 | h1
    · rw [h1]
      unfold minStep
      by_cases hc : f i < f h
      · right; simp [hc]
      · left; simp [hc]
    · right; exact List.mem_cons_of_mem _ h1

theorem foldl_minStep_le (f : ℕ → ℚ) (t : List ℕ) :
    ∀ h, f (t.foldl (minStep f) h) ≤ f h ∧
      ∀ j ∈ t, f (t.foldl (minStep f) h) ≤ f j := by
  induction t with
  | nil => intro h; exact ⟨le_refl _, fun j hj => absurd hj (List.not_mem_nil j)⟩
  | cons i t ih =>
    intro h
    simp only [List.foldl_cons]
    obtain ⟨ha, hb⟩ := ih (minStep f h i)
    have hstep_h : f (minStep f h i) ≤ f h := by
      unfold minStep; by_cases hc : f i < f h
      · simp [hc]; exact le_of_lt hc
      · simp [hc]
    have hstep_i : f (minStep f h i) ≤ f i := by
      unfold minStep; by_cases hc : f i < f h
      · simp [hc]
      · simp [hc]; exact le_of_not_lt hc
    refine ⟨le_trans ha hstep_h, fun j hj => ?_⟩
    rcases List.mem_cons.mp hj with rfl | hj
    · exact le_trans ha hstep_i
    · exact hb j hj

theorem foldl_minStep_strict (f : ℕ → ℚ) (t : List ℕ) :
    ∀ h, t.foldl (minStep f) h = h ∨
      (t.foldl (minStep f) h ∈ t ∧ f (t.foldl (minStep f) h) < f h) := by
  induction t with
  | nil => intro h; left; rfl
  | cons i t ih =>
    intro h
    simp only [List.foldl_cons]
    by_cases hc : f i < f h
    · have hstep : minStep f h i = i := by unfold minStep; simp [hc]
      rw [hstep]
      rcases ih i with h1 | ⟨h1, h2⟩
      · right
        exact ⟨by rw [h1]; exact List.mem_cons_self i t, by rw [h1]; exact hc⟩
      · right
        exact ⟨List.mem_cons_of_mem _ h1, lt_trans h2 hc⟩
    · have hstep : minStep f h i = h := by unfold minStep; simp [hc]
      rw [hstep]
      rcases ih h with h1 | ⟨h1, h2⟩
      · left; exact h1
      · right; exact ⟨List.mem_cons_of_mem _ h1, h2⟩

theorem foldl_minStep_first (f : ℕ → ℚ) (t : List ℕ) :
    ∀ h, (h :: t).Pairwise (· < ·) →
      ∀ j ∈ h :: t, j < t.foldl (minStep f) h → f (t.foldl (minStep f) h) < f j := by
  induction t with
  | nil =>
    intro h _ j hj hlt
    rcases List.mem_cons.mp hj with rfl | hj
    · simp only [List.foldl_nil] at hlt; omega
    · exact absurd hj (List.not_mem_nil j)
  | cons i t ih =>
    intro h hp j hj hlt
    simp only [List.foldl_cons] at hlt ⊢
    have hpi : (i :: t).Pairwise (· < ·) := (List.pairwise_cons.mp hp).2
    have hhi : h < i := (List.pairwise_cons.mp hp).1 i (List.mem_cons_self i t)
    have hht : ∀ m ∈ t, h < m := fun m hm =>
      (List.pairwise_cons.mp hp).1 m (List.mem_cons_of_mem _ hm)
    by_cases hc : f i < f h
    · have hstep : minStep f h i = i := by unfold minStep; simp [hc]
      rw [hstep] at hlt ⊢
      rcases List.mem_cons.mp hj with rfl | hj
      · have := (foldl_minStep_le f t i).1
        exact lt_of_le_of_lt this hc
      · exact ih i hpi j hj hlt
    · have hstep : minStep f h i = h := by unfold minStep; simp [hc]
      rw [hstep] at hlt ⊢
      rcases List.mem_cons.mp hj with rfl | hj
      · rcases foldl_minStep_strict f t j with h1 | ⟨-, h2⟩
        · rw [h1] at hlt; omega
        · exact h2
      rcases List.mem_cons.mp hj with rfl | hj
      · rcases foldl_minStep_strict f t h with h1 | ⟨h1, h2⟩
        · rw [h1] at hlt; omega
        · have : f h ≤ f j := le_of_not_lt hc
          exact lt_of_lt_of_le h2 this
      · have hpt : (h :: t).Pairwise (· < ·) := by
          rw [List.pairwise_cons]
          exact ⟨hht, (List.pairwise_cons.mp hpi).2⟩
        exact ih h hpt j (List.mem_cons_of_mem _ hj) hlt

theorem idxminL_spec (f : ℕ → ℚ) (l : List ℕ) (hne : l ≠ []) :
    idxminL f l ∈ l ∧ (∀ j ∈ l, f (idxminL f l) ≤ f j) ∧
      (l.Pairwise (· < ·) → ∀ j ∈ l, j < idxminL f l → f (idxminL f l) < f j) := by
  cases l with
  | nil => exact absurd rfl hne
  | cons h t =>
    simp only [idxminL]
    refine ⟨?_, ?_, ?_⟩
    · rcases foldl_minStep_mem f t h with h1 | h1
      · rw [h1]; exact List.mem_cons_self h t
      · exact List.mem_cons_of_mem _ h1
    · intro j hj
      rcases List.mem_cons.mp hj with rfl | hj
      · exact (foldl_minStep_le f t j).1
      · exact (foldl_minStep_le f t h).2 j hj
    · exact fun hp => foldl_minStep_first f t h hp

/-- `profile_xy.loc[s:]` on the ascending `x` index: the sub-sequence of
samples with `s <= x` (inclusive of `s`). -/
def subsetFrom (p : List Sample) (s : ℚ) : List Sample :=
  p.filter (fun r => decide (s ≤ r.x))

/-- `profile_xy.loc[a:b]` on the ascending `x` index: the closed sub-range
`a <= x <= b` (empty when `b < a`, as pandas label slicing yields an empty
frame for reversed bounds on an increasing index). -/
def subsetRange (p : List Sample) (a b : ℚ) : List Sample :=
  p.filter (fun r => decide (a ≤ r.x) && decide (r.x ≤ b))

/-- The boolean filter of `identify_shore` at position `i`:
`(y > 0) & (y > y.shift(1).expanding(min_periods=1).max())
       & (slope.rolling(5).min().shift(-4) >= 0)`.
The shifted expanding maximum is `NaN` at `i = 0` and the rolling slope
minimum is `NaN` whenever the 5-value window `[i, i+4]` leaves the series
or touches the undefined `slope[0]`, and `NaN` comparisons are `False`. -/
def shoreFilter (p : List Sample) (i : ℕ) : Bool :=
  decide (0 < yAt p i)
    && (decide (0 < i) && (List.range i).all fun j => decide (yAt p j < yAt p i))
    && (decide (0 < i) && decide (i + 4 < p.length)
        && (List.range 5).all fun k => decide (0 ≤ slopeAt p (i + k)))

/-- `identify_shore` (source lines 85-109).  `x_coord = filtered.idxmax()`
is the first `True` position when one exists, otherwise the first row
label; the final test is literally `if filtered[x_coord]: return None
else: return x_coord` as written in the source (note the inversion
against its own comment).  An empty profile raises in pandas and is
modelled as absent. -/
def identify_shore (p : List Sample) : Option ℚ :=
  match findFirst (shoreFilter p) p.length with
  | some _ => none
  | none => p.head?.map (·.x)

/-- The boolean filter of `identify_crest` at position `i` of the subset:
`(y > y.shift(1).expanding(min_periods=1).max())
  & (y - y.rolling(20).min().shift(-20) > 0.6)
  & (y > y.rolling(10).max().shift(-10))`.
The shifted rolling windows read the 20 (resp. 10) positions strictly
after `i` and are `NaN` when they leave the series. -/
def crestFilter (q : List Sample) (i : ℕ) : Bool :=
  (decide (0 < i) && (List.range i).all fun j => decide (yAt q j < yAt q i))
    && (decide (i + 20 < q.length)
        && (List.range 20).any fun k => decide (yAt q (i + 1 + k) < yAt q i - 3/5))
    && (decide (i + 10 < q.length)
        && (List.range 10).all fun k => decide (yAt q (i + 1 + k) < yAt q i))

/-- `identify_crest` (source lines 112-135): first position of
`profile_xy.loc[shore_x:]` passing the filter, `None` when none does
(`if filtered[x_coord] == False: return None`). -/
def identify_crest (p : List Sample) (shore_x : ℚ) : Option ℚ :=
  (findFirst (crestFilter (subsetFrom p shore_x)) (subsetFrom p shore_x).length).map
    fun i => xAt (subsetFrom p shore_x) i

/-- The exclusion conjunction of `identify_heel` at position `i` of the
subset: `(y - y.rolling(10).min().shift(-10) > 0.6)
  & (y > y.rolling(10).max())
  & (y > y.rolling(20).max().shift(-20))`.
`y.rolling(10).max()` is the trailing window `[i-9, i]`, which contains
the current sample itself (no shift in the source). -/
def heelExcl (q : List Sample) (i : ℕ) : Bool :=
  (decide (i + 10 < q.length)
      && (List.range 10).any fun k => decide (yAt q (i + 1 + k) < yAt q i - 3/5))
    && (decide (9 ≤ i) && (List.range 10).all fun k => decide (yAt q (i - 9 + k) < yAt q i))
    && (decide (i + 20 < q.length)
        && (List.range 20).all fun k => decide (yAt q (i + 1 + k) < yAt q i))

/-- `identify_heel` (source lines 162-184): `filtered = ~(exclusion)`;
`if filtered.all(): return None` as literally written, otherwise
`y[filtered].idxmin()` (which raises on an empty selection in pandas;
that dead branch is modelled as absent). -/
def identify_heel (p : List Sample) (crest_x : ℚ) : Option ℚ :=
  if (List.range (subsetFrom p crest_x).length).all
      (fun i => ! heelExcl (subsetFrom p crest_x) i) then none
  else
    match (List.range (subsetFrom p crest_x).length).filter
        (fun i => ! heelExcl (subsetFrom p crest_x) i) with
    | [] => none
    | i :: is =>
      some (xAt (subsetFrom p crest_x) (idxminL (yAt (subsetFrom p crest_x)) (i :: is)))

/-- 3x3 determinant (first-row cofactor expansion). -/
def det3 (a b c d e f g h i : ℚ) : ℚ :=
  a * (e * i - f * h) - b * (d * i - f * g) + c * (d * h - e * g)

/-- 4x4 determinant (first-row cofactor expansion). -/
def det4 (m00 m01 m02 m03 m10 m11 m12 m13 m20 m21 m22 m23 m30 m31 m32 m33 : ℚ) : ℚ :=
  m00 * det3 m11 m12 m13 m21 m22 m23 m31 m32 m33
    - m01 * det3 m10 m12 m13 m20 m22 m23 m30 m32 m33
    + m02 * det3 m10 m11 m13 m20 m21 m23 m30 m31 m33
    - m03 * det3 m10 m11 m12 m20 m21 m22 m30 m31 m32

/-- Power sum `sum x^k` over a subset's `x` column. -/
def psum (l : List Sample) (k : ℕ) : ℚ := (l.map fun r => r.x ^ k).sum

/-- Moment `sum x^k * y` over a subset. -/
def pysum (l : List Sample) (k : ℕ) : ℚ := (l.map fun r => r.x ^ k * r.y).sum

/-- `np.polyfit(x, y, 3)` : the least-squares cubic, embedded as the
solution `(A, B, C, D)` (highest degree first, as numpy returns) of the
normal equations `Mᵀ M c = Mᵀ y` of the degree-3 Vandermonde system,
computed by Cramer's rule over exact rationals. -/
def polyfit3 (l : List Sample) : ℚ × ℚ × ℚ × ℚ :=
  let s0 := psum l 0; let s1 := psum l 1; let s2 := psum l 2; let s3 := psum l 3
  let s4 := psum l 4; let s5 := psum l 5; let s6 := psum l 6
  let t0 := pysum l 0; let t1 := pysum l 1; let t2 := pysum l 2; let t3 := pysum l 3
  let dd := det4 s6 s5 s4 s3 s5 s4 s3 s2 s4 s3 s2 s1 s3 s2 s1 s0
  let dA := det4 t3 s5 s4 s3 t2 s4 s3 s2 t1 s3 s2 s1 t0 s2 s1 s0
  let dB := det4 s6 t3 s4 s3 s5 t2 s3 s2 s4 t1 s2 s1 s3 t0 s1 s0
  let dC := det4 s6 s5 t3 s3 s5 s4 t2 s2 s4 s3 t1 s1 s3 s2 t0 s0
  let dD := det4 s6 s5 s4 t3 s5 s4 s3 t2 s4 s3 s2 t1 s3 s2 s1 t0
  (dA / dd, dB / dd, dC / dd, dD / dd)

/-- `(A * x * x * x) + (B * x * x) + (C * x) + D` from the source. -/
def polyEval (co : ℚ × ℚ × ℚ × ℚ) (t : ℚ) : ℚ :=
  co.1 * t * t * t + co.2.1 * t * t + co.2.2.1 * t + co.2.2.2

/-- The `differences` series of `identify_toe` at position `i` of the
subset: actual elevation minus the fitted polynomial's prediction. -/
def resid (q : List Sample) (i : ℕ) : ℚ := yAt q i - polyEval (polyfit3 q) (xAt q i)

/-- `differences.idxmin()` of `identify_toe`: the position (within the
sub-range) of the first occurrence of the minimal residual. -/
def toeIdx (p : List Sample) (shore_x crest_x : ℚ) : ℕ :=
  idxminL (resid (subsetRange p shore_x crest_x))
    (List.range (subsetRange p shore_x crest_x).length)

/-- `identify_toe` (source lines 138-159): fit over
`profile_xy.loc[shore_x:crest_x]`, take `differences.idxmin()`, and
return `None` when its label equals `shore_x` or `crest_x`.  On an empty
subset `np.polyfit`/`idxmin` raise; modelled as absent. -/
def identify_toe (p : List Sample) (shore_x crest_x : ℚ) : Option ℚ :=
  match subsetRange p shore_x crest_x with
  | [] => none
  | _ :: _ =>
    if xAt (subsetRange p shore_x crest_x) (toeIdx p shore_x crest_x) = shore_x
        ∨ xAt (subsetRange p shore_x crest_x) (toeIdx p shore_x crest_x) = crest_x
    then none
    else some (xAt (subsetRange p shore_x crest_x) (toeIdx p shore_x crest_x))

/-- `profile_xy.loc[v, "y"]`: the `y` value at row label `v` (a `KeyError`
for an absent label never occurs on the source's paths; `0` is a dummy). -/
def lookupY (p : List Sample) (v : ℚ) : ℚ :=
  ((p.find? fun r => decide (r.x = v)).map (·.y)).getD 0

/-- The chained structure of `identify_features` (source lines 192-228),
parametric in the four detectors: each step runs only if the previous one
resolved, any `None` short-circuits the whole result, and a successful
run returns `(shore_x, shore_y, toe_x, toe_y, crest_x, crest_y, heel_x,
heel_y)`. -/
def featuresWith (fs : List Sample → Option ℚ) (fc : List Sample → ℚ → Option ℚ)
    (ft : List Sample → ℚ → ℚ → Option ℚ) (fh : List Sample → ℚ → Option ℚ)
    (p : List Sample) : Option (ℚ × ℚ × ℚ × ℚ × ℚ × ℚ × ℚ × ℚ) :=
  match fs p with
  | none => none
  | some shore_x =>
    match fc p shore_x with
    | none => none
    | some crest_x =>
      match ft p shore_x crest_x with
      | none => none
      | some toe_x =>
        match fh p crest_x with
        | none => none
        | some heel_x =>
          some (shore_x, lookupY p shore_x, toe_x, lookupY p toe_x,
                crest_x, lookupY p crest_x, heel_x, lookupY p heel_x)

/-- `identify_features` with the source's four detectors. -/
def identify_features (p : List Sample) : Option (ℚ × ℚ × ℚ × ℚ × ℚ × ℚ × ℚ × ℚ) :=
  featuresWith identify_shore identify_crest identify_toe identify_heel p

/-- `np.trapz(y=y, x=x)`: the trapezoidal sum
`sum (x[i+1] - x[i]) * (y[i] + y[i+1]) / 2` (0 for fewer than two
samples, as numpy returns). -/
def np_trapz : List Sample → ℚ
  | [] => 0
  | [_] => 0
  | a :: b :: rest => (b.x - a.x) * (a.y + b.y) / 2 + np_trapz (b :: rest)

/-- `measure_volume` (source lines 231-258): restrict to
`loc[start_x:end_x]`, subtract the base elevation from `y`, apply
`np.trapz`, and multiply by the profile spacing. -/
def measure_volume (p : List Sample) (start_x end_x profile_spacing base_elevation : ℚ) : ℚ :=
  np_trapz ((subsetRange p start_x end_x).map fun r => ⟨r.x, r.y - base_elevation⟩)
    * profile_spacing

/-- One row of the concatenated dataset `xy_data` (columns `state`,
`segment`, `profile`, `x`, `y`). -/
structure DataRow where
  state : ℕ
  segment : ℕ
  profile : ℕ
  x : ℚ
  y : ℚ
deriving DecidableEq, Repr

/-- The grouping key of `groupby(["state", "segment", "profile"])`. -/
def DataRow.key (r : DataRow) : ℕ × ℕ × ℕ := (r.state, r.segment, r.profile)

/-- Forget the grouping columns, keeping the `(x, y)` data. -/
def DataRow.toSample (r : DataRow) : Sample := ⟨r.x, r.y⟩

/-- `xy_data["x"].iat[1] - xy_data["x"].iat[0]` (source line 284): the
difference between the first two `x` values of the whole dataset (fewer
than two rows raises in pandas; `0` is a dummy default). -/
def profile_spacing (d : List DataRow) : ℚ :=
  (d.map (·.x)).getD 1 0 - (d.map (·.x)).getD 0 0

/-- Lexicographic order on grouping keys (pandas `groupby` sorts group
keys). -/
def keyLe (a b : ℕ × ℕ × ℕ) : Bool :=
  decide (a.1 < b.1)
    || (decide (a.1 = b.1)
        && (decide (a.2.1 < b.2.1)
            || (decide (a.2.1 = b.2.1) && decide (a.2.2 ≤ b.2.2))))

/-- `xy_data.groupby(["state", "segment", "profile"])`: one sub-frame per
distinct key, keys in sorted order, rows in original order. -/
def groupedBy (d : List DataRow) : List (List DataRow) :=
  (((d.map DataRow.key).dedup).mergeSort keyLe).map
    fun k => d.filter fun r => decide (r.key = k)

/-- `measure_feature_volumes` (source lines 266-293): compute the spacing
once from the whole dataset, then `zip` the per-profile groups with the
per-profile start/end/base values (truncating like Python `zip`) and
measure each volume with that single spacing. -/
def measure_feature_volumes (xy_data : List DataRow)
    (start_values end_values base_elevations : List ℚ) : List ℚ :=
  ((groupedBy xy_data).zip ((start_values.zip end_values).zip base_elevations)).map
    fun g => measure_volume (g.1.map DataRow.toSample) g.2.1.1 g.2.1.2
      (profile_spacing xy_data) g.2.2

/-- A pandas float cell: `NaN`, an infinity, or a finite value.  Embeds
the IEEE comparison semantics the plausibility filter relies on. -/
inductive Val where
  | nan : Val
  | inf : Val
  | ninf : Val
  | fin : ℚ → Val
deriving DecidableEq, Repr

/-- `v < c` for a float cell against a finite threshold (`NaN < c` is
`False`). -/
def Val.ltc : Val → ℚ → Bool
  | .nan, _ => false
  | .inf, _ => false
  | .ninf, _ => true
  | .fin q, c => decide (q < c)

/-- `v > c` for a float cell against a finite threshold (`NaN > c` is
`False`). -/
def Val.gtc : Val → ℚ → Bool
  | .nan, _ => false
  | .inf, _ => true
  | .ninf, _ => false
  | .fin q, c => decide (c < q)

/-- The cell holds a finite value. -/
def Val.isFinite : Val → Bool
  | .fin _ => true
  | _ => false

/-- One row of `beach_data` (source lines 355-383). -/
structure BeachRow where
  dune_height : Val
  beach_width : Val
  dune_toe : Val
  dune_crest : Val
  dune_length : Val
  beach_slope : Val
  dune_slope : Val
  beach_vol : Val
  dune_vol : Val
  bd_ratio : Val
deriving DecidableEq, Repr

/-- The boolean mask of the plausibility filter (source lines 391-400). -/
def plausibleMask (r : BeachRow) : Bool :=
  r.dune_vol.ltc 300 && r.beach_vol.ltc 500
    && r.dune_height.gtc 1 && r.dune_height.ltc 10
    && r.dune_length.gtc 5 && r.dune_length.ltc 25
    && r.dune_crest.ltc 20
    && r.beach_width.gtc 10 && r.beach_width.ltc 60

/-- The row holds a missing value in some column (`dropna` drops exactly
these rows; infinities are not missing values for pandas). -/
def BeachRow.hasNa (r : BeachRow) : Bool :=
  r.dune_height = .nan || r.beach_width = .nan || r.dune_toe = .nan
    || r.dune_crest = .nan || r.dune_length = .nan || r.beach_slope = .nan
    || r.dune_slope = .nan || r.beach_vol = .nan || r.dune_vol = .nan
    || r.bd_ratio = .nan

/-- Every column of the row is finite. -/
def BeachRow.allFinite (r : BeachRow) : Bool :=
  r.dune_height.isFinite && r.beach_width.isFinite && r.dune_toe.isFinite
    && r.dune_crest.isFinite && r.dune_length.isFinite && r.beach_slope.isFinite
    && r.dune_slope.isFinite && r.beach_vol.isFinite && r.dune_vol.isFinite
    && r.bd_ratio.isFinite

/-- `beach_data[mask].dropna()` (source lines 391-400): keep the rows
passing the mask, then drop the rows holding a missing value. -/
def filter_beach_data (t : List BeachRow) : List BeachRow :=
  (t.filter plausibleMask).filter fun r => ! r.hasNa

/-- The spec's shore qualification at position `i` (claim C1): elevation
strictly positive; elevation a strict new running maximum over all
earlier positions (so an earlier position must exist); and the minimum of
the current and next 4 slope values non-negative (the current slope must
exist, i.e. `0 < i`, and the window must stay inside the profile). -/
def ShoreSpecQual (p : List Sample) (i : ℕ) : Prop :=
  0 < yAt p i ∧
    (0 < i ∧ ∀ j < i, yAt p j < yAt p i) ∧
    (0 < i ∧ i + 4 < p.length ∧ ∀ k < 5, 0 ≤ slopeAt p (i + k))

instance (p : List Sample) (i : ℕ) : Decidable (ShoreSpecQual p i) := by
  unfold ShoreSpecQual; infer_instance

/-- The spec's crest qualification at position `i` of the sub-sequence
(claims C6): new running maximum over the sub-sequence; elevation minus
the minimum of the following 20 elevations exceeds 0.6; elevation exceeds
the maximum of the following 10 elevations.  Windows extending past the
boundary (including the empty set of earlier positions) do not qualify. -/
def CrestSpecQual (q : List Sample) (i : ℕ) : Prop :=
  (0 < i ∧ ∀ j < i, yAt q j < yAt q i) ∧
    (i + 20 < q.length ∧ ∃ k < 20, yAt q (i + 1 + k) < yAt q i - 3/5) ∧
    (i + 10 < q.length ∧ ∀ k < 10, yAt q (i + 1 + k) < yAt q i)

instance (q : List Sample) (i : ℕ) : Decidable (CrestSpecQual q i) := by
  unfold CrestSpecQual; infer_instance

/-- The spec's heel exclusion at position `i` of the sub-sequence (claim
C2): an elevation drop of more than 0.6 within the next 10 positions;
elevation strictly above the maximum of the previous 10 positions (the
positions `i-10 .. i-1`); elevation strictly above the maximum of the
next 20 positions.  Windows extending past the boundary do not hold. -/
def HeelSpecExcl (q : List Sample) (i : ℕ) : Prop :=
  (i + 10 < q.length ∧ ∃ k < 10, yAt q (i + 1 + k) < yAt q i - 3/5) ∧
    (10 ≤ i ∧ ∀ k < 10, yAt q (i - 10 + k) < yAt q i) ∧
    (i + 20 < q.length ∧ ∀ k < 20, yAt q (i + 1 + k) < yAt q i)

instance (q : List Sample) (i : ℕ) : Decidable (HeelSpecExcl q i) := by
  unfold HeelSpecExcl; infer_instance

/-- A first-occurrence minimal-residual position of the toe sub-range
(claim C4): minimal residual, and strictly smaller than every earlier
residual. -/
def IsFirstMinResid (q : List Sample) (i : ℕ) : Prop :=
  i < q.length ∧ (∀ j < q.length, resid q i ≤ resid q j) ∧
    ∀ j < i, resid q i < resid q j

/-- A profile where position `1` (x = 1) satisfies all three shore
conditions: positive, a new running maximum, and five non-negative slopes
ahead. -/
def exShoreP : List Sample := [⟨0, 1/2⟩, ⟨1, 1⟩, ⟨2, 2⟩, ⟨3, 3⟩, ⟨4, 4⟩, ⟨5, 5⟩]

/-- A strictly decreasing profile: no position qualifies as shore (and
none as crest). -/
def exNoShoreP : List Sample := [⟨0, 3⟩, ⟨1, 2⟩, ⟨2, 1⟩]

/-- A short decreasing profile used from crest `x = 0`: no heel-exclusion
window fits, so no position is excluded and the minimum elevation sits at
`x = 2`. -/
def exHeelP : List Sample := [⟨0, 3⟩, ⟨1, 2⟩, ⟨2, 1⟩]

/-- 26-sample profile: no shore qualification anywhere (every running
maximum is followed by a negative slope), crest qualification first at
position 5 (x = 5), and an interior minimal residual (x = 2) over the toe
sub-range `[0, 5]`. -/
def exP2 : List Sample :=
  [⟨0, 1⟩, ⟨1, 3⟩, ⟨2, 2⟩, ⟨3, 7/2⟩, ⟨4, 5/2⟩, ⟨5, 4⟩]
    ++ (List.range 20).map fun k => ⟨(6 + k : ℕ), ((19 : ℚ) - k) / 5⟩

/-- 25-sample profile: no shore qualification, crest first at position 3
(x = 3), and a toe sub-range of exactly 4 samples, so the cubic fits
exactly, every residual is 0, and the minimal residual sits at the shore
endpoint. -/
def exP3 : List Sample :=
  [⟨0, 1⟩, ⟨1, 3⟩, ⟨2, 2⟩, ⟨3, 4⟩]
    ++ (List.range 21).map fun k => ⟨(4 + k : ℕ), 7/2 - 3 * (k : ℚ) / 20⟩

/-- A flat two-point profile, the spec's worked trapezoid example. -/
def exFlat2 : List Sample := [⟨0, 5⟩, ⟨10, 5⟩]

/-- The heel exclusion conjunction is unsatisfiable: its middle condition
compares the current elevation against the maximum of the trailing window
`[i-9, i]`, which contains the current sample itself. -/
theorem heelExcl_eq_false (q : List Sample) (i : ℕ) : heelExcl q i = false := by
  unfold heelExcl
  by_cases h9 : 9 ≤ i
  · have hmid : ((List.range 10).all fun k => decide (yAt q (i - 9 + k) < yAt q i)) = false := by
      rw [List.all_eq_false]
      refine ⟨9, by simp, ?_⟩
      have : i - 9 + 9 = i := by omega
      simp [this]
    rw [hmid]
    simp
  · have h9' : decide (9 ≤ i) = false := by simp [h9]
    rw [h9']
    simp

/-- `identify_heel` never resolves: nothing is ever excluded, so the
source's `if filtered.all(): return None` branch is always taken. -/
theorem identify_heel_eq_none (p : List Sample) (c : ℚ) : identify_heel p c = none := by
  unfold identify_heel
  have hall : ((List.range (subsetFrom p c).length).all
      fun i => ! heelExcl (subsetFrom p c) i) = true := by
    rw [List.all_eq_true]
    intro i _
    rw [heelExcl_eq_false]
    rfl
  rw [hall]
  rfl

/-- `identify_features` never resolves (its heel step never does). -/
theorem identify_features_eq_none (p : List Sample) : identify_features p = none := by
  unfold identify_features featuresWith
  cases identify_shore p with
  | none => rfl
  | some sx =>
    dsimp only
    cases identify_crest p sx with
    | none => rfl
    | some cx =>
      dsimp only
      cases identify_toe p sx cx with
      | none => rfl
      | some tx =>
        dsimp only
        rw [identify_heel_eq_none]

/-- C1 (code bug): the spec says `identify_shore` returns the x of the
first position satisfying the three shore conditions and `None` exactly
when no position qualifies.  The source's final test
`if filtered[x_coord]: return None else: return x_coord` is inverted
against its own comment: on a profile whose position 1 (x = 1) qualifies,
the code returns `None`, and on a profile with no qualifying position it
returns the first x coordinate instead of `None`. -/
theorem shore_detector_inverted :
    ShoreSpecQual exShoreP 1 ∧ identify_shore exShoreP = none ∧
      (∀ i < exNoShoreP.length, ¬ ShoreSpecQual exNoShoreP i) ∧
      identify_shore exNoShoreP = some 0 := by
  with_unfolding_all decide

/-- C2 (code bug): the spec says `identify_heel` excludes positions
satisfying the three-part conjunction, returns the minimum-elevation x
among the rest, and `None` exactly when everything is excluded.  In the
source the "previous 10" window `y.rolling(10).max()` contains the
current sample, so the exclusion is unsatisfiable, and the final test
`if filtered.all(): return None` is inverted: `identify_heel` returns
`None` on every input.  On the example (crest at x = 0) no position is
excluded — the claim demands the minimum-elevation x (x = 2), yet the
code yields `None`. -/
theorem heel_detector_never_resolves :
    (∀ p c, identify_heel p c = none) ∧
      (∃ i, i < (subsetFrom exHeelP 0).length ∧ ¬ HeelSpecExcl (subsetFrom exHeelP 0) i) ∧
      yAt (subsetFrom exHeelP 0) 2 = 1 ∧
      (∀ i, i < (subsetFrom exHeelP 0).length →
        yAt (subsetFrom exHeelP 0) 2 ≤ yAt (subsetFrom exHeelP 0) i) := by
  refine ⟨identify_heel_eq_none, ?_⟩
  with_unfolding_all decide

/-- The crest filter is the spec's crest qualification, position by
position. -/
theorem crestFilter_eq_true_iff (q : List Sample) (i : ℕ) :
    crestFilter q i = true ↔ CrestSpecQual q i := by
  unfold crestFilter CrestSpecQual
  simp only [Bool.and_eq_true, List.all_eq_true, List.any_eq_true, List.mem_range,
    decide_eq_true_eq]
  tauto

theorem crest_some_iff (p : List Sample) (s : ℚ) (c : ℚ) :
    identify_crest p s = some c ↔
      ∃ i, i < (subsetFrom p s).length ∧ CrestSpecQual (subsetFrom p s) i ∧
        (∀ j < i, ¬ CrestSpecQual (subsetFrom p s) j) ∧ c = xAt (subsetFrom p s) i := by
  unfold identify_crest
  rw [Option.map_eq_some']
  constructor
  · rintro ⟨i, hfind, rfl⟩
    rw [findFirst_some_iff] at hfind
    obtain ⟨h1, h2, h3⟩ := hfind
    refine ⟨i, h1, (crestFilter_eq_true_iff _ _).mp h2, fun j hj hq => ?_, rfl⟩
    have := (crestFilter_eq_true_iff _ _).mpr hq
    rw [h3 j hj] at this
    cases this
  · rintro ⟨i, h1, h2, h3, rfl⟩
    refine ⟨i, ?_, rfl⟩
    rw [findFirst_some_iff]
    refine ⟨h1, (crestFilter_eq_true_iff _ _).mpr h2, fun k hk => ?_⟩
    cases hfk : crestFilter (subsetFrom p s) k with
    | false => rfl
    | true => exact absurd ((crestFilter_eq_true_iff _ _).mp hfk) (h3 k hk)

theorem crest_none_iff (p : List Sample) (s : ℚ) :
    identify_crest p s = none ↔
      ∀ i < (subsetFrom p s).length, ¬ CrestSpecQual (subsetFrom p s) i := by
  unfold identify_crest
  rw [Option.map_eq_none', findFirst_none_iff]
  constructor
  · intro h i hi hq
    have := (crestFilter_eq_true_iff _ _).mpr hq
    rw [h i hi] at this
    cases this
  · intro h k hk
    cases hfk : crestFilter (subsetFrom p s) k with
    | false => rfl
    | true => exact absurd ((crestFilter_eq_true_iff _ _).mp hfk) (h k hk)

/-- C6 (confirmed): on the sub-sequence from `shore_x` onward (inclusive),
`identify_crest` returns the x of the first position that is a new
running maximum over the sub-sequence, rises by more than 0.6 above the
minimum of the following 20 elevations, and exceeds the maximum of the
following 10 elevations; it returns `None` exactly when no position
qualifies, and windows reaching past the boundary never qualify (they
are `NaN` comparisons, not errors). -/
theorem crest_matches_spec (p : List Sample) (s : ℚ) (_hs : sortedX p)
    (_hmem : s ∈ xsOf p) :
    (∀ c, identify_crest p s = some c ↔
      ∃ i, i < (subsetFrom p s).length ∧ CrestSpecQual (subsetFrom p s) i ∧
        (∀ j < i, ¬ CrestSpecQual (subsetFrom p s) j) ∧ c = xAt (subsetFrom p s) i) ∧
    (identify_crest p s = none ↔
      ∀ i < (subsetFrom p s).length, ¬ CrestSpecQual (subsetFrom p s) i) :=
  ⟨fun c => crest_some_iff p s c, crest_none_iff p s⟩

/-- Concrete instance of `crest_matches_spec` on the 26-sample profile:
the hypotheses hold and the crest resolves to x = 5, the first qualifying
position of the sub-sequence. -/
theorem crest_matches_spec_witness :
    sortedX exP2 ∧ (0 : ℚ) ∈ xsOf exP2 ∧ identify_crest exP2 0 = some 5 :=
  ⟨by with_unfolding_all decide, by with_unfolding_all decide,
    ((crest_matches_spec exP2 0 (by with_unfolding_all decide)
        (by with_unfolding_all decide)).1 5).mpr
      ⟨5, by with_unfolding_all decide, by with_unfolding_all decide,
        by with_unfolding_all decide, by with_unfolding_all decide⟩⟩

/-- `differences.idxmin()` is a first-occurrence minimal-residual
position whenever the sub-range is non-empty. -/
theorem toeIdx_isFirstMin (p : List Sample) (s c : ℚ)
    (hne : subsetRange p s c ≠ []) :
    IsFirstMinResid (subsetRange p s c) (toeIdx p s c) := by
  unfold toeIdx
  have hlen : 0 < (subsetRange p s c).length := List.length_pos.mpr hne
  have hrne : List.range (subsetRange p s c).length ≠ [] := by
    intro h
    rw [List.range_eq_nil] at h
    omega
  obtain ⟨hmem, hle, hfirst⟩ := idxminL_spec (resid (subsetRange p s c))
    (List.range (subsetRange p s c).length) hrne
  rw [List.mem_range] at hmem
  refine ⟨hmem, fun j hj => hle j (List.mem_range.mpr hj), fun j hj => ?_⟩
  exact hfirst (List.pairwise_lt_range _) j (List.mem_range.mpr (by omega)) hj

/-- First-occurrence minimal-residual positions are unique. -/
theorem isFirstMinResid_unique (q : List Sample) (i j : ℕ) :
    IsFirstMinResid q i → IsFirstMinResid q j → i = j := by
  rintro ⟨hi1, hi2, hi3⟩ ⟨hj1, hj2, hj3⟩
  by_contra hne
  rcases Nat.lt_or_ge i j with h | h
  · exact absurd (hi2 j hj1) (not_le.mpr (hj3 i h))
  · have hij : j < i := by omega
    exact absurd (hj2 i hi1) (not_le.mpr (hi3 j hij))

/-- C4 (confirmed): `identify_toe` fits the least-squares cubic over the
closed sub-range `[shore_x, crest_x]`, returns the x of the (first)
position of minimum residual, and returns `None` exactly when that
position sits at `shore_x` or `crest_x`; consequently a resolved toe x
never equals `shore_x` or `crest_x`. -/
theorem toe_matches_spec (p : List Sample) (s c : ℚ) (_hs : sortedX p)
    (hsm : s ∈ xsOf p) (_hcm : c ∈ xsOf p) (hlt : s < c) :
    (∀ t, identify_toe p s c = some t ↔
      ∃ i, IsFirstMinResid (subsetRange p s c) i ∧ xAt (subsetRange p s c) i ≠ s ∧
        xAt (subsetRange p s c) i ≠ c ∧ t = xAt (subsetRange p s c) i) ∧
    (identify_toe p s c = none ↔
      ∀ i, IsFirstMinResid (subsetRange p s c) i →
        xAt (subsetRange p s c) i = s ∨ xAt (subsetRange p s c) i = c) ∧
    (∀ t, identify_toe p s c = some t → t ≠ s ∧ t ≠ c) := by
  have hne : subsetRange p s c ≠ [] := by
    rw [xsOf, List.mem_map] at hsm
    obtain ⟨r, hr, hrx⟩ := hsm
    have hmem : r ∈ subsetRange p s c := by
      rw [subsetRange, List.mem_filter]
      refine ⟨hr, ?_⟩
      rw [hrx]
      simp [le_refl, le_of_lt hlt]
    exact List.ne_nil_of_mem hmem
  have hFM := toeIdx_isFirstMin p s c hne
  have huniq : ∀ i, IsFirstMinResid (subsetRange p s c) i → i = toeIdx p s c :=
    fun i hi => isFirstMinResid_unique _ _ _ hi hFM
  have hbody : identify_toe p s c =
      if xAt (subsetRange p s c) (toeIdx p s c) = s
          ∨ xAt (subsetRange p s c) (toeIdx p s c) = c
      then none
      else some (xAt (subsetRange p s c) (toeIdx p s c)) := by
    unfold identify_toe
    cases hq : subsetRange p s c with
    | nil => exact absurd hq hne
    | cons a l => rfl
  by_cases hend : xAt (subsetRange p s c) (toeIdx p s c) = s
      ∨ xAt (subsetRange p s c) (toeIdx p s c) = c
  · rw [if_pos hend] at hbody
    refine ⟨?_, ?_, ?_⟩
    · intro t
      constructor
      · intro ht; rw [hbody] at ht; cases ht
      · rintro ⟨i, hi, hne1, hne2, rfl⟩
        rw [huniq i hi] at hne1 hne2
        rcases hend with h | h
        · exact absurd h hne1
        · exact absurd h hne2
    · constructor
      · intro _ i hi
        rw [huniq i hi]
        exact hend
      · intro _; exact hbody
    · intro t ht; rw [hbody] at ht; cases ht
  · rw [if_neg hend] at hbody
    push_neg at hend
    refine ⟨?_, ?_, ?_⟩
    · intro t
      constructor
      · intro ht
        rw [hbody] at ht
        injection ht with ht
        exact ⟨toeIdx p s c, hFM, hend.1, hend.2, ht.symm⟩
      · rintro ⟨i, hi, hne1, hne2, rfl⟩
        rw [hbody, huniq i hi]
    · constructor
      · intro h
        rw [hbody] at h
        cases h
      · intro h
        rcases h (toeIdx p s c) hFM with h1 | h1
        · exact absurd h1 hend.1
        · exact absurd h1 hend.2
    · intro t ht
      rw [hbody] at ht
      injection ht with ht
      rw [← ht]
      exact ⟨hend.1, hend.2⟩

/-- Concrete instance of `toe_matches_spec` on the 26-sample profile with
`shore_x = 0`, `crest_x = 5`: the hypotheses hold and the resolved toe
x = 2 differs from both endpoints. -/
theorem toe_matches_spec_witness :
    sortedX exP2 ∧ (0 : ℚ) ∈ xsOf exP2 ∧ (5 : ℚ) ∈ xsOf exP2 ∧ (0 : ℚ) < 5 ∧
      identify_toe exP2 0 5 = some 2 ∧ ((2 : ℚ) ≠ 0 ∧ (2 : ℚ) ≠ 5) :=
  ⟨by with_unfolding_all decide, by with_unfolding_all decide,
    by with_unfolding_all decide, by with_unfolding_all decide,
    by with_unfolding_all decide,
    (toe_matches_spec exP2 0 5 (by with_unfolding_all decide)
        (by with_unfolding_all decide) (by with_unfolding_all decide)
        (by with_unfolding_all decide)).2.2 2 (by with_unfolding_all decide)⟩

/-- A position inside a list contributes its `x` to the sampled range. -/
theorem xAt_mem_xsOf (l : List Sample) (i : ℕ) (h : i < l.length) :
    xAt l i ∈ xsOf l := by
  unfold xAt xsOf
  rw [List.getD_eq_getElem l _ h]
  exact List.mem_map_of_mem _ (List.getElem_mem h)

/-- Sampled `x` values of a filtered profile are sampled `x` values of the
profile. -/
theorem xsOf_filter_subset (p : List Sample) (f : Sample → Bool) (v : ℚ) :
    v ∈ xsOf (p.filter f) → v ∈ xsOf p := by
  unfold xsOf
  rw [List.mem_map, List.mem_map]
  rintro ⟨r, hr, rfl⟩
  exact ⟨r, List.mem_of_mem_filter hr, rfl⟩

/-- C3 (confirmed): on a profile with strictly increasing `x`, every
resolved landmark's x is one of the profile's sampled `x` values (hence
lies within the sampled x-range), and a complete FeatureSet satisfies
`shore_x < toe_x < crest_x < heel_x` — the latter holds vacuously
because `identify_heel` never resolves, so `identify_features` never
returns a complete FeatureSet. -/
theorem landmarks_in_range_and_ordered (p : List Sample) (_hs : sortedX p) :
    (∀ v, identify_shore p = some v → v ∈ xsOf p) ∧
    (∀ s v, identify_crest p s = some v → v ∈ xsOf p) ∧
    (∀ s c v, identify_toe p s c = some v → v ∈ xsOf p) ∧
    (∀ c v, identify_heel p c = some v → v ∈ xsOf p) ∧
    (∀ sx sy tx ty cx cy hx hy,
      identify_features p = some (sx, sy, tx, ty, cx, cy, hx, hy) →
      sx < tx ∧ tx < cx ∧ cx < hx) := by
  refine ⟨?_, ?_, ?_, ?_, ?_⟩
  · intro v hv
    unfold identify_shore at hv
    cases hf : findFirst (shoreFilter p) p.length with
    | some i => rw [hf] at hv; cases hv
    | none =>
      rw [hf] at hv
      simp only [Option.map_eq_some'] at hv
      obtain ⟨r, hr, rfl⟩ := hv
      cases p with
      | nil => cases hr
      | cons a t =>
        rw [List.head?_cons] at hr
        injection hr with hr
        rw [← hr]
        exact List.mem_map_of_mem _ (List.mem_cons_self a t)
  · intro s v hv
    unfold identify_crest at hv
    simp only [Option.map_eq_some'] at hv
    obtain ⟨i, hfind, rfl⟩ := hv
    rw [findFirst_some_iff] at hfind
    exact xsOf_filter_subset p _ _ (xAt_mem_xsOf _ _ hfind.1)
  · intro s c v hv
    unfold identify_toe at hv
    cases hq : subsetRange p s c with
    | nil => rw [hq] at hv; cases hv
    | cons a l =>
      rw [hq] at hv
      dsimp only at hv
      rw [← hq] at hv
      by_cases hend : xAt (subsetRange p s c) (toeIdx p s c) = s
          ∨ xAt (subsetRange p s c) (toeIdx p s c) = c
      · rw [if_pos hend] at hv; cases hv
      · rw [if_neg hend] at hv
        injection hv with hv
        rw [← hv]
        have hne : subsetRange p s c ≠ [] := by rw [hq]; exact List.cons_ne_nil a l
        have hFM := toeIdx_isFirstMin p s c hne
        exact xsOf_filter_subset p _ _ (xAt_mem_xsOf _ _ hFM.1)
  · intro c v hv
    rw [identify_heel_eq_none] at hv
    cases hv
  · intro sx sy tx ty cx cy hx hy hcontra
    rw [identify_features_eq_none] at hcontra
    cases hcontra

/-- Concrete instance of `landmarks_in_range_and_ordered`: on the sorted
three-sample profile the resolved shore x (0, via the inverted branch)
is indeed a sampled x value. -/
theorem landmarks_in_range_and_ordered_witness :
    sortedX exHeelP ∧ (0 : ℚ) ∈ xsOf exHeelP :=
  ⟨by with_unfolding_all decide,
    (landmarks_in_range_and_ordered exHeelP (by with_unfolding_all decide)).1 0
      (by with_unfolding_all decide)⟩

/-- C5 (confirmed): the landmark chain short-circuits.  Whatever the
detectors do, if the shore search fails the whole result is absent and no
later search affects it; likewise for a failing crest, toe or heel after
resolved predecessors.  A non-absent result always carries all eight
coordinate fields, produced by the four detectors and the `y` lookups. -/
theorem features_chain_short_circuits :
    (∀ fs fc ft fh (p : List Sample), fs p = none →
      featuresWith fs fc ft fh p = none) ∧
    (∀ fs fc ft fh (p : List Sample) (sx : ℚ), fs p = some sx →
      fc p sx = none → featuresWith fs fc ft fh p = none) ∧
    (∀ fs fc ft fh (p : List Sample) (sx cx : ℚ), fs p = some sx →
      fc p sx = some cx → ft p sx cx = none →
      featuresWith fs fc ft fh p = none) ∧
    (∀ fs fc ft fh (p : List Sample) (sx cx tx : ℚ), fs p = some sx →
      fc p sx = some cx → ft p sx cx = some tx → fh p cx = none →
      featuresWith fs fc ft fh p = none) ∧
    (∀ fs fc ft fh (p : List Sample) r, featuresWith fs fc ft fh p = some r →
      fs p = some r.1 ∧ r.2.1 = lookupY p r.1 ∧
      fc p r.1 = some r.2.2.2.2.1 ∧ r.2.2.2.2.2.1 = lookupY p r.2.2.2.2.1 ∧
      ft p r.1 r.2.2.2.2.1 = some r.2.2.1 ∧ r.2.2.2.1 = lookupY p r.2.2.1 ∧
      fh p r.2.2.2.2.1 = some r.2.2.2.2.2.2.1 ∧
      r.2.2.2.2.2.2.2 = lookupY p r.2.2.2.2.2.2.1) := by
  refine ⟨?_, ?_, ?_, ?_, ?_⟩
  · intro fs fc ft fh p h1
    unfold featuresWith
    rw [h1]
  · intro fs fc ft fh p sx h1 h2
    unfold featuresWith
    rw [h1]
    dsimp only
    rw [h2]
  · intro fs fc ft fh p sx cx h1 h2 h3
    unfold featuresWith
    rw [h1]
    dsimp only
    rw [h2]
    dsimp only
    rw [h3]
  · intro fs fc ft fh p sx cx tx h1 h2 h3 h4
    unfold featuresWith
    rw [h1]
    dsimp only
    rw [h2]
    dsimp only
    rw [h3]
    dsimp only
    rw [h4]
  · intro fs fc ft fh p r h
    unfold featuresWith at h
    cases h1 : fs p with
    | none => rw [h1] at h; cases h
    | some sx =>
      rw [h1] at h
      dsimp only at h
      cases h2 : fc p sx with
      | none => rw [h2] at h; cases h
      | some cx =>
        rw [h2] at h
        dsimp only at h
        cases h3 : ft p sx cx with
        | none => rw [h3] at h; cases h
        | some tx =>
          rw [h3] at h
          dsimp only at h
          cases h4 : fh p cx with
          | none => rw [h4] at h; cases h
          | some hx =>
            rw [h4] at h
            dsimp only at h
            injection h with h
            subst h
            exact ⟨rfl, rfl, h2, rfl, h3, rfl, h4, rfl⟩

/-- Concrete instances of `features_chain_short_circuits`: one profile
failing at each stage of the chain (shore, crest, toe, heel) yields an
absent FeatureSet, and a successful (dummy-detector) run pins all eight
fields. -/
theorem features_chain_short_circuits_witness :
    featuresWith identify_shore identify_crest identify_toe identify_heel exShoreP = none ∧
    featuresWith identify_shore identify_crest identify_toe identify_heel exNoShoreP = none ∧
    featuresWith identify_shore identify_crest identify_toe identify_heel exP3 = none ∧
    featuresWith identify_shore identify_crest identify_toe identify_heel exP2 = none ∧
    (2 : ℚ) = lookupY [⟨0, 2⟩] 0 :=
  ⟨features_chain_short_circuits.1 _ _ _ _ exShoreP (by with_unfolding_all decide),
   features_chain_short_circuits.2.1 _ _ _ _ exNoShoreP 0
     (by with_unfolding_all decide) (by with_unfolding_all decide),
   features_chain_short_circuits.2.2.1 _ _ _ _ exP3 0 3
     (by with_unfolding_all decide) (by with_unfolding_all decide)
     (by with_unfolding_all decide),
   features_chain_short_circuits.2.2.2.1 _ _ _ _ exP2 0 5 2
     (by with_unfolding_all decide) (by with_unfolding_all decide)
     (by with_unfolding_all decide) (identify_heel_eq_none exP2 5),
   (features_chain_short_circuits.2.2.2.2 (fun _ => some 0) (fun _ _ => some 0)
     (fun _ _ _ => some 0) (fun _ _ => some 0) [⟨0, 2⟩] (0, 2, 0, 2, 0, 2, 0, 2)
     (by with_unfolding_all rfl)).2.1⟩

/-- The spec's trapezoidal-integral formula (claim C8): sum over adjacent
sample pairs of the x-gap times the mean of the two base-relative
elevations. -/
def trapSpecSum (l : List Sample) (base : ℚ) : ℚ :=
  (List.zipWith (fun a b => (b.x - a.x) * ((a.y - base) + (b.y - base)) / 2) l l.tail).sum

/-- `np.trapz` after subtracting the base elevation agrees with the
adjacent-pairs trapezoid formula. -/
theorem np_trapz_map_sub (base : ℚ) (l : List Sample) :
    np_trapz (l.map fun r => ⟨r.x, r.y - base⟩) = trapSpecSum l base := by
  induction l with
  | nil => rfl
  | cons a t ih =>
    cases t with
    | nil => rfl
    | cons b rest =>
      simp only [List.map_cons, np_trapz, trapSpecSum, List.tail_cons, List.zipWith_cons_cons,
        List.sum_cons] at ih ⊢
      rw [← ih]

/-- C8 (confirmed): for bounds `start_x <= end_x`, `measure_volume` is the
trapezoidal integral of base-relative elevation over the samples of the
closed sub-range, multiplied by the profile spacing; on the flat
two-point profile `(0,5),(10,5)` with spacing 1 it yields 0 for base 5
and 50 for base 0. -/
theorem volume_matches_trapezoid_spec :
    (∀ (p : List Sample) (a b s c : ℚ), sortedX p → a ≤ b →
      measure_volume p a b s c = trapSpecSum (subsetRange p a b) c * s) ∧
    measure_volume exFlat2 0 10 1 5 = 0 ∧ measure_volume exFlat2 0 10 1 0 = 50 := by
  refine ⟨?_, ?_, ?_⟩
  · intro p a b s c _ _
    unfold measure_volume
    rw [np_trapz_map_sub]
  · with_unfolding_all decide
  · with_unfolding_all decide

/-- Concrete instance of `volume_matches_trapezoid_spec` on the flat
two-point profile. -/
theorem volume_matches_trapezoid_spec_witness :
    sortedX exFlat2 ∧ (0 : ℚ) ≤ 10 ∧
      measure_volume exFlat2 0 10 1 5 = trapSpecSum (subsetRange exFlat2 0 10) 5 * 1 :=
  ⟨by with_unfolding_all decide, by with_unfolding_all decide,
    volume_matches_trapezoid_spec.1 exFlat2 0 10 1 5 (by with_unfolding_all decide)
      (by with_unfolding_all decide)⟩

/-- C10 (counterexample): volume is not antisymmetric under reversal of
the bound order.  On the flat two-point profile, `[0,10]` with base 0 and
spacing 1 gives 50, while `[10,0]` selects an empty pandas label slice
and gives 0, not -50. -/
theorem volume_reversal_antisymmetry_cex :
    measure_volume exFlat2 0 10 1 0 ≠ - measure_volume exFlat2 10 0 1 0 := by
  with_unfolding_all decide

/-- C10 (amended): with reversed bounds (`end_x < start_x`) the closed
sub-range is empty, so `measure_volume` returns 0 whatever the profile,
base and spacing — not -1 times the forward volume. -/
theorem volume_reversed_bounds_zero (p : List Sample) (a b s c : ℚ) (h : b < a) :
    measure_volume p a b s c = 0 := by
  have hnil : subsetRange p a b = [] := by
    rw [subsetRange, List.filter_eq_nil_iff]
    intro r _
    simp only [Bool.and_eq_true, decide_eq_true_eq, not_and]
    intro h1 h2
    linarith
  unfold measure_volume
  rw [hnil]
  simp [np_trapz]

/-- Concrete instance of `volume_reversed_bounds_zero`. -/
theorem volume_reversed_bounds_zero_witness :
    (0 : ℚ) < 10 ∧ measure_volume exFlat2 10 0 1 0 = 0 :=
  ⟨by with_unfolding_all decide,
    volume_reversed_bounds_zero exFlat2 10 0 1 0 (by with_unfolding_all decide)⟩

/-- Modelled from the spec (claim C9's wording, for comparison with the
source's `profile_spacing`): the gap between the x-origins of the first
two consecutive distinct profiles of the dataset — the first `x` of the
first profile against the first `x` of the next profile with a different
key. -/
def xOriginGap (d : List DataRow) : Option ℚ :=
  match d with
  | [] => none
  | r0 :: rest => (rest.find? fun r => ! decide (r.key = r0.key)).map fun r1 => r1.x - r0.x

/-- Two profiles of two samples each; within-profile sample gap 2, both
profiles starting at x = 0. -/
def exDataset : List DataRow :=
  [⟨29, 1, 1, 0, 0⟩, ⟨29, 1, 1, 2, 0⟩, ⟨29, 1, 2, 0, 0⟩, ⟨29, 1, 2, 2, 0⟩]

/-- C9 (counterexample): the spacing constant the source computes is the
gap between the dataset's first two `x` values (the first profile's first
two samples), which differs from the spec's "gap between the x-origins of
the first two consecutive distinct profiles" (both profiles here start
at x = 0, so that gap is 0 while the source computes 2). -/
theorem spacing_not_origin_gap_cex :
    profile_spacing exDataset = 2 ∧ xOriginGap exDataset = some 0 ∧
      some (profile_spacing exDataset) ≠ xOriginGap exDataset := by
  with_unfolding_all decide

/-- C9 (amended): the spacing constant is computed once per dataset as
the difference between the dataset's first two `x` values (the first two
samples of the first profile), and that single constant is the spacing
passed to every per-profile volume computation. -/
theorem spacing_is_first_sample_gap (r0 r1 : DataRow) (rest : List DataRow)
    (ss es bs : List ℚ) :
    profile_spacing (r0 :: r1 :: rest) = r1.x - r0.x ∧
    ∀ v ∈ measure_feature_volumes (r0 :: r1 :: rest) ss es bs,
      ∃ g a b c, v = measure_volume g a b (profile_spacing (r0 :: r1 :: rest)) c := by
  constructor
  · unfold profile_spacing
    simp [List.getD]
  · intro v hv
    unfold measure_feature_volumes at hv
    rw [List.mem_map] at hv
    obtain ⟨g, hg, rfl⟩ := hv
    exact ⟨g.1.map DataRow.toSample, g.2.1.1, g.2.1.2, g.2.2, rfl⟩

/-- Concrete instance of `spacing_is_first_sample_gap` on the two-profile
dataset: the spacing is 2 and the single computed volume uses it. -/
theorem spacing_is_first_sample_gap_witness :
    profile_spacing exDataset = 2 ∧
      (0 : ℚ) ∈ measure_feature_volumes exDataset [0] [2] [0] ∧
      (∃ g a b c, (0 : ℚ) = measure_volume g a b (profile_spacing exDataset) c) := by
  refine ⟨?_, by with_unfolding_all decide, ?_⟩
  · have h := (spacing_is_first_sample_gap ⟨29, 1, 1, 0, 0⟩ ⟨29, 1, 1, 2, 0⟩
      [⟨29, 1, 2, 0, 0⟩, ⟨29, 1, 2, 2, 0⟩] [] [] []).1
    exact h.trans (by with_unfolding_all decide)
  · exact (spacing_is_first_sample_gap ⟨29, 1, 1, 0, 0⟩ ⟨29, 1, 1, 2, 0⟩
      [⟨29, 1, 2, 0, 0⟩, ⟨29, 1, 2, 2, 0⟩] [0] [2] [0]).2 0
      (by with_unfolding_all decide)

/-- A metrics row passing every range predicate, with no missing value,
but an infinite `bd_ratio` (as division by a zero beach volume can
produce). -/
def exBadRow : BeachRow :=
  ⟨.fin 5, .fin 20, .fin 1, .fin 10, .fin 10, .fin (1/10), .fin (1/2),
    .fin 100, .fin 100, .inf⟩

/-- C7 (counterexample): the source's filter retains `exBadRow` — its
mask passes and `dropna` only removes `NaN` — even though the row holds a
non-finite value, contradicting the claim that a row is retained iff all
range predicates hold and no column is non-finite or missing. -/
theorem plausibility_filter_infinity_cex :
    exBadRow ∈ filter_beach_data [exBadRow] ∧ exBadRow.allFinite = false ∧
      ¬ (exBadRow ∈ filter_beach_data [exBadRow] ↔
          plausibleMask exBadRow = true ∧ exBadRow.allFinite = true) := by
  with_unfolding_all decide

/-- C7 (amended): the filter retains a row of the table iff the row
passes the nine range comparisons (with pandas `NaN`/infinity comparison
semantics, where a `NaN` comparison fails) and holds no missing (`NaN`)
value in any of the ten columns; infinities in columns that pass the
comparisons are retained. -/
theorem plausibility_filter_amended (t : List BeachRow) (r : BeachRow) :
    r ∈ filter_beach_data t ↔ r ∈ t ∧ plausibleMask r = true ∧ r.hasNa = false := by
  unfold filter_beach_data
  rw [List.mem_filter, List.mem_filter]
  rw [Bool.not_eq_true']
  tauto
